import Mathlib

/-!
Verification development for the VulkanAPI repository's frame lifecycle,
presentation-surface management, and multi-threaded command-recording
subsystems. Definitions are shallow embeddings of the corresponding C++
source (`src/VulkanApplication.cpp`, `Renderer.cpp`, `SwapChain.hpp`,
`BasicRenderer.cpp`, `PointLightRenderer.cpp`); theorems settle the
specification's testable properties against them.
-/

/-- Embeds `SwapChain::MAX_FRAMES_IN_FLIGHT` (SwapChain.hpp): compile-time bound on
simultaneously unretired frames. -/
def MAX_FRAMES_IN_FLIGHT : Nat := 2

/-! ## Parallel recording fan-out (`VulkanApplication::run`)

The run loop computes `N = view.size()`, `chunk = (N + M - 1) / M`, and for
each worker `t < M` the range `begin = min(N, t*chunk)`,
`end = min(N, begin + chunk)`; it breaks out of the dispatch loop at the
first empty range. -/

/-- Embeds `const size_t chunk = (N + M - 1)/M;` in `VulkanApplication::run`. -/
def chunkSize (N M : Nat) : Nat := (N + M - 1) / M

/-- Embeds `const size_t begin = std::min(N, size_t(t) * chunk);`. -/
def workerBegin (N M t : Nat) : Nat := min N (t * chunkSize N M)

/-- Embeds `const size_t end = std::min(N, begin + chunk);`. -/
def workerEnd (N M t : Nat) : Nat := min N (workerBegin N M t + chunkSize N M)

/-- The dispatch loop of `VulkanApplication::run`: starting at worker `t`
with `fuel` iterations left (the loop runs `t = 0 .. M-1`), it emits the
worker's `[begin, end)` range, stopping (`break`) at the first empty
range. -/
def dispatchLoop (N M : Nat) : Nat → Nat → List (Nat × Nat)
  | 0, _ => []
  | fuel + 1, t =>
    if workerBegin N M t ≥ workerEnd N M t then []
    else (workerBegin N M t, workerEnd N M t) :: dispatchLoop N M fuel (t + 1)

/-- The ranges actually dispatched to worker threads (loop over `t < M`). -/
def dispatchRanges (N M : Nat) : List (Nat × Nat) := dispatchLoop N M M 0

/-- The renderable indices covered by a range `[b, e)`. -/
def rangeIdx (r : Nat × Nat) : List Nat := List.range' r.1 (r.2 - r.1)

theorem chunkSize_pos {N M : Nat} (hM : 1 ≤ M) (hN : 1 ≤ N) :
    1 ≤ chunkSize N M := by
  unfold chunkSize
  rw [Nat.le_div_iff_mul_le (Nat.lt_of_lt_of_le Nat.zero_lt_one hM)]
  omega

theorem chunkSize_mul_ge {N M : Nat} (hM : 1 ≤ M) : N ≤ M * chunkSize N M := by
  unfold chunkSize
  have h := Nat.div_add_mod (N + M - 1) M
  have h2 := Nat.mod_lt (N + M - 1) (Nat.lt_of_lt_of_le Nat.zero_lt_one hM)
  omega

theorem workerEnd_eq (N M t : Nat) :
    workerEnd N M t = min N ((t + 1) * chunkSize N M) := by
  unfold workerEnd workerBegin
  have h : (t + 1) * chunkSize N M = t * chunkSize N M + chunkSize N M := by
    rw [Nat.succ_mul]
  rw [h]
  omega

/-- Flattening the dispatched ranges from worker `t` onwards yields exactly
the indices from `min N (t*chunk)` up to `N`, provided the remaining fuel
suffices to reach `N`. -/
theorem dispatchLoop_flatten {N M : Nat} (hc : 1 ≤ chunkSize N M) :
    ∀ fuel t, N ≤ (t + fuel) * chunkSize N M →
      (dispatchLoop N M fuel t).flatMap rangeIdx =
        List.range' (min N (t * chunkSize N M)) (N - min N (t * chunkSize N M)) := by
  intro fuel
  induction fuel with
  | zero =>
    intro t ht
    simp only [Nat.add_zero] at ht
    simp only [dispatchLoop, List.flatMap_nil]
    have : min N (t * chunkSize N M) = N := by omega
    rw [this]
    simp
  | succ k ih =>
    intro t ht
    by_cases hb : N ≤ t * chunkSize N M
    · have hbeq : workerBegin N M t = N := by unfold workerBegin; omega
      have heeq : workerEnd N M t = N := by
        unfold workerEnd; rw [hbeq]; omega
      simp only [dispatchLoop, hbeq, heeq, ge_iff_le, le_refl, if_true,
        List.flatMap_nil]
      have : min N (t * chunkSize N M) = N := by omega
      rw [this]
      simp
    · push_neg at hb
      have hbeq : workerBegin N M t = t * chunkSize N M := by
        unfold workerBegin; omega
      have hlt : workerBegin N M t < workerEnd N M t := by
        unfold workerEnd; rw [hbeq]; omega
      simp only [dispatchLoop, Nat.not_le.mpr hlt, ge_iff_le, if_false,
        List.flatMap_cons]
      have hrec := ih (t + 1) (by
        have : (t + 1 + k) * chunkSize N M = (t + (k + 1)) * chunkSize N M := by
          ring
        omega)
      rw [hrec]
      have hsucc : (t + 1) * chunkSize N M = t * chunkSize N M + chunkSize N M := by
        rw [Nat.succ_mul]
      unfold rangeIdx
      rw [workerEnd_eq, hbeq]
      have hmin : min N (t * chunkSize N M) = t * chunkSize N M := by omega
      rw [hmin]
      rcases Nat.le_total N ((t + 1) * chunkSize N M) with hle | hle
      · have h1 : min N ((t + 1) * chunkSize N M) = N := by omega
        rw [h1]
        simp only [Nat.sub_self, List.range'_zero, List.append_nil]
      · have h1 : min N ((t + 1) * chunkSize N M) = (t + 1) * chunkSize N M := by
          omega
        rw [h1]
        have := List.range'_append (t * chunkSize N M)
          ((t + 1) * chunkSize N M - t * chunkSize N M)
          (N - (t + 1) * chunkSize N M) 1
        simp only [one_mul] at this
        have harg : t * chunkSize N M +
            ((t + 1) * chunkSize N M - t * chunkSize N M) =
            (t + 1) * chunkSize N M := by omega
        rw [harg] at this
        rw [this]
        congr 1
        omega

/-- Flattening all dispatched ranges gives exactly `[0, N)`, in order. -/
theorem dispatchRanges_flatten {N M : Nat} (hM : 1 ≤ M) :
    (dispatchRanges N M).flatMap rangeIdx = List.range N := by
  unfold dispatchRanges
  by_cases hN : N = 0
  · subst hN
    have hb : workerBegin 0 M 0 = 0 := by unfold workerBegin; omega
    have he : workerEnd 0 M 0 = 0 := by unfold workerEnd; omega
    cases M with
    | zero => omega
    | succ m =>
      simp only [dispatchLoop, hb, he, ge_iff_le, le_refl, if_true,
        List.flatMap_nil, List.range_zero]
  · have hc : 1 ≤ chunkSize N M := chunkSize_pos hM (by omega)
    have h := dispatchLoop_flatten hc M 0 (by
      simpa using chunkSize_mul_ge (N := N) hM)
    rw [h]
    simp [List.range_eq_range']

theorem count_range' (i s n : Nat) :
    List.count i (List.range' s n) = if s ≤ i ∧ i < s + n then 1 else 0 := by
  induction n generalizing s with
  | zero =>
    simp only [List.range'_zero, List.count_nil, Nat.add_zero]
    exact (if_neg (by omega)).symm
  | succ m ih =>
    rw [List.range'_succ, List.count_cons, ih (s + 1)]
    simp only [beq_iff_eq]
    split_ifs <;> omega

theorem countP_covers (i : Nat) (rs : List (Nat × Nat)) :
    rs.countP (fun r => decide (r.1 ≤ i ∧ i < r.2)) =
      List.count i (rs.flatMap rangeIdx) := by
  induction rs with
  | nil => simp
  | cons r rs ih =>
    rw [List.flatMap_cons, List.count_append, List.countP_cons, ih]
    unfold rangeIdx
    rw [count_range']
    simp only [decide_eq_true_eq]
    split_ifs <;> omega

/-- C1: with `M = max(2, hardwareConcurrency)` workers and
`chunk = ceil(N / M)`, worker `t` owns `[min(N, t*chunk), min(N, (t+1)*chunk))`,
and the dispatched (non-empty) ranges exactly partition `[0, N)`: flattened
in dispatch order they give `0, 1, …, N-1`, and every index below `N` is
covered by exactly one dispatched range — including `N = 0`, `N < M`, and
`N` not divisible by `M`. -/
theorem fanout_ranges_partition (N M : Nat) (hM : 2 ≤ M) :
    (∀ t, workerBegin N M t = min N (t * chunkSize N M) ∧
          workerEnd N M t = min N ((t + 1) * chunkSize N M)) ∧
    (dispatchRanges N M).flatMap rangeIdx = List.range N ∧
    (∀ i, i < N →
      (dispatchRanges N M).countP (fun r => decide (r.1 ≤ i ∧ i < r.2)) = 1) := by
  refine ⟨fun t => ⟨rfl, workerEnd_eq N M t⟩, dispatchRanges_flatten (by omega), ?_⟩
  intro i hi
  rw [countP_covers, dispatchRanges_flatten (by omega), List.range_eq_range',
    count_range']
  simp only [Nat.zero_add]
  rw [if_pos ⟨Nat.zero_le i, hi⟩]

theorem fanout_ranges_partition_witness :
    2 ≤ 4 ∧
    ((dispatchRanges 5 4).flatMap rangeIdx = List.range 5 ∧
     (dispatchRanges 5 4).countP (fun r => decide (r.1 ≤ 4 ∧ 4 < r.2)) = 1) :=
  ⟨by decide,
   (fanout_ranges_partition 5 4 (by decide)).2.1,
   (fanout_ranges_partition 5 4 (by decide)).2.2 4 (by decide)⟩

/-! ## Join phase (`VulkanApplication::run`)

After `th.join()` on every dispatched thread, the loop
`for (t = 0; t < threads.size(); ++t) execList.push_back(workers[t].sec[frameIndex])`
collects the secondary buffers of exactly the dispatched workers, and
`if (!execList.empty()) vkCmdExecuteCommands(commandBuffer, size, data)` is
one batched call. -/

/-- Identifier of `workers[t].sec[fi]`: worker `t`'s long-lived secondary
command buffer for frame slot `fi`. -/
def secondaryBuffer (t fi : Nat) : Nat × Nat := (t, fi)

/-- Embeds `threads.size()` after the dispatch loop: one thread per dispatched range. -/
def dispatchedWorkerCount (N M : Nat) : Nat := (dispatchRanges N M).length

/-- Embeds `execList` as built by the collection loop. -/
def execList (N M fi : Nat) : List (Nat × Nat) :=
  (List.range (dispatchedWorkerCount N M)).map (fun t => secondaryBuffer t fi)

/-- Number of `vkCmdExecuteCommands` calls issued for the frame: a single
batched call iff `execList` is non-empty. -/
def executeCallCount (N M fi : Nat) : Nat :=
  if execList N M fi = [] then 0 else 1

/-- Number of workers whose range is non-empty (`= ceil(N / chunk)`). -/
def nonEmptyWorkers (N M : Nat) : Nat :=
  (N + chunkSize N M - 1) / chunkSize N M

theorem lt_nonEmptyWorkers_iff {N M : Nat} (hc : 1 ≤ chunkSize N M) (t : Nat) :
    t < nonEmptyWorkers N M ↔ t * chunkSize N M < N := by
  unfold nonEmptyWorkers
  have h1 : t < (N + chunkSize N M - 1) / chunkSize N M ↔
      (t + 1) * chunkSize N M ≤ N + chunkSize N M - 1 := by
    rw [← Nat.le_div_iff_mul_le (by omega)]
    omega
  rw [h1, Nat.succ_mul]
  omega

theorem workerRange_nonEmpty_iff {N M : Nat} (hM : 1 ≤ M) (t : Nat) :
    workerBegin N M t < workerEnd N M t ↔ t < nonEmptyWorkers N M := by
  by_cases hN : N = 0
  · subst hN
    have hc0 : chunkSize 0 M = 0 := by
      unfold chunkSize
      exact Nat.div_eq_of_lt (by omega)
    unfold workerBegin workerEnd nonEmptyWorkers
    rw [hc0]
    simp [Nat.div_zero]
  · have hc : 1 ≤ chunkSize N M := chunkSize_pos hM (by omega)
    rw [lt_nonEmptyWorkers_iff hc]
    unfold workerEnd workerBegin
    constructor
    · intro h
      by_contra hge
      push_neg at hge
      omega
    · intro h
      have hb : min N (t * chunkSize N M) = t * chunkSize N M := by omega
      omega

/-- The dispatch loop emits exactly the prefix of workers with non-empty
ranges (capped by the remaining fuel), in ascending worker order. -/
theorem dispatchLoop_eq_map {N M : Nat} (hM : 1 ≤ M) :
    ∀ fuel t, dispatchLoop N M fuel t =
      (List.range' t (min fuel (nonEmptyWorkers N M - t))).map
        (fun u => (workerBegin N M u, workerEnd N M u)) := by
  intro fuel
  induction fuel with
  | zero =>
    intro t
    simp [dispatchLoop]
  | succ k ih =>
    intro t
    by_cases hne : workerBegin N M t < workerEnd N M t
    · have hT : t < nonEmptyWorkers N M := (workerRange_nonEmpty_iff hM t).mp hne
      have hmin : min (k + 1) (nonEmptyWorkers N M - t) =
          min k (nonEmptyWorkers N M - (t + 1)) + 1 := by omega
      rw [dispatchLoop, if_neg (by omega), ih (t + 1), hmin, List.range'_succ,
        List.map_cons]
    · have hT : ¬ t < nonEmptyWorkers N M := fun h =>
        hne ((workerRange_nonEmpty_iff hM t).mpr h)
      have hmin : min (k + 1) (nonEmptyWorkers N M - t) = 0 := by omega
      rw [dispatchLoop, if_pos (by omega), hmin, List.range'_zero, List.map_nil]

/-- The dispatched ranges are those of workers `0 .. min M T - 1` where `T`
is the number of non-empty ranges. -/
theorem dispatchRanges_eq_map {N M : Nat} (hM : 1 ≤ M) :
    dispatchRanges N M =
      (List.range (min M (nonEmptyWorkers N M))).map
        (fun u => (workerBegin N M u, workerEnd N M u)) := by
  rw [dispatchRanges, dispatchLoop_eq_map hM M 0, List.range_eq_range']
  simp

theorem dispatchedWorkerCount_eq {N M : Nat} (hM : 1 ≤ M) :
    dispatchedWorkerCount N M = min M (nonEmptyWorkers N M) := by
  rw [dispatchedWorkerCount, dispatchRanges_eq_map hM, List.length_map,
    List.length_range]

theorem filter_range_lt (T : Nat) :
    ∀ M, (List.range M).filter (fun t => decide (t < T)) = List.range (min M T) := by
  intro M
  induction M with
  | zero => simp
  | succ m ih =>
    rw [List.range_succ, List.filter_append, ih]
    by_cases h : m < T
    · have h1 : min (m + 1) T = min m T + 1 := by omega
      rw [h1, List.range_succ]
      simp only [List.filter_cons, List.filter_nil, decide_eq_true_eq]
      rw [if_pos h]
      have hmm : m ⊓ T = m := by omega
      rw [hmm]
    · have h1 : min (m + 1) T = min m T := by omega
      simp [h1, h]

theorem chunkSize_zero {M : Nat} (hM : 1 ≤ M) : chunkSize 0 M = 0 := by
  unfold chunkSize
  exact Nat.div_eq_of_lt (by omega)

theorem nonEmptyWorkers_zero {M : Nat} (hM : 1 ≤ M) : nonEmptyWorkers 0 M = 0 := by
  unfold nonEmptyWorkers
  rw [chunkSize_zero hM]

theorem dispatchRanges_eq_nil_iff {N M : Nat} (hM : 1 ≤ M) :
    dispatchRanges N M = [] ↔ N = 0 := by
  constructor
  · intro h
    by_contra hN
    have hc : 1 ≤ chunkSize N M := chunkSize_pos hM (by omega)
    have hT : 0 < nonEmptyWorkers N M := by
      rw [lt_nonEmptyWorkers_iff hc 0]
      omega
    have := congrArg List.length h
    rw [dispatchRanges_eq_map hM, List.length_map, List.length_range] at this
    simp at this
    omega
  · intro h
    subst h
    rw [dispatchRanges_eq_map hM, nonEmptyWorkers_zero hM]
    simp

theorem execList_eq_nil_iff {N M : Nat} (fi : Nat) :
    execList N M fi = [] ↔ dispatchRanges N M = [] := by
  unfold execList dispatchedWorkerCount
  rw [List.map_eq_nil_iff, List.range_eq_nil, List.length_eq_zero]

/-- C6: after the join, `execList` holds exactly the secondary buffers of the
dispatched (non-empty) worker ranges — empty ranges contribute none — in
ascending worker order (equal to renderable-range order); they are executed
by a single batched `vkCmdExecuteCommands` call, and no call is made when
no range was dispatched (which happens exactly when `N = 0`). -/
theorem join_executes_dispatched (N M fi : Nat) (hM : 2 ≤ M) :
    execList N M fi =
      (((List.range M).filter
          (fun t => decide (workerBegin N M t < workerEnd N M t))).map
        (fun t => secondaryBuffer t fi)) ∧
    (execList N M fi).length = (dispatchRanges N M).length ∧
    List.Pairwise (· < ·) ((execList N M fi).map Prod.fst) ∧
    executeCallCount N M fi = (if dispatchRanges N M = [] then 0 else 1) ∧
    (dispatchRanges N M = [] ↔ N = 0) := by
  have hM1 : 1 ≤ M := by omega
  have hfilter : (List.range M).filter
      (fun t => decide (workerBegin N M t < workerEnd N M t)) =
      List.range (min M (nonEmptyWorkers N M)) := by
    rw [← filter_range_lt (nonEmptyWorkers N M) M]
    apply List.filter_congr
    intro t _
    exact decide_eq_decide.mpr (workerRange_nonEmpty_iff hM1 t)
  refine ⟨?_, ?_, ?_, ?_, dispatchRanges_eq_nil_iff hM1⟩
  · rw [hfilter]
    unfold execList
    rw [dispatchedWorkerCount_eq hM1]
  · unfold execList dispatchedWorkerCount
    rw [List.length_map, List.length_range]
  · unfold execList secondaryBuffer
    rw [List.map_map]
    have : (Prod.fst ∘ fun t => ((t, fi) : Nat × Nat)) = fun t => t := rfl
    rw [this, List.map_id_fun']
    exact List.pairwise_lt_range _
  · unfold executeCallCount
    rw [if_congr (execList_eq_nil_iff fi) rfl rfl]

theorem join_executes_dispatched_witness :
    2 ≤ 4 ∧ executeCallCount 5 4 1 = 1 ∧ (execList 0 4 1).length = 0 := by
  have h5 := join_executes_dispatched 5 4 1 (by decide)
  have h0 := join_executes_dispatched 0 4 1 (by decide)
  refine ⟨by decide, ?_, ?_⟩
  · rw [h5.2.2.2.1, if_neg (by decide)]
  · rw [h0.2.1]
    decide

/-! ## Renderer frame scheduler (`Renderer.cpp`, `Renderer.hpp`)

`Renderer` owns `currentFrameIndex ∈ [0, MAX_FRAMES_IN_FLIGHT)`,
`currentImageIndex` (written by `acquireNextImage`), `isFrameStarted`, and the
swapchain. Failed `assert`s and thrown `std::runtime_error`s are modelled as
`Except.error`; `recreateSwapChain` is tracked by a generation counter. -/

/-- Result of `SwapChain::acquireNextImage` as seen by `Renderer::beginFrame`:
`VK_SUCCESS` and `VK_SUBOPTIMAL_KHR` carry the image index written through the
out-pointer, `VK_ERROR_OUT_OF_DATE_KHR` signals a stale surface, and
`other c` stands for any other `VkResult` code. -/
inductive AcquireResult where
  | success (imageIndex : Nat)
  | suboptimal (imageIndex : Nat)
  | outOfDate
  | other (code : Nat)
deriving DecidableEq

/-- Result of `SwapChain::submitCommandBuffers` (submit + present). -/
inductive PresentResult where
  | success
  | suboptimal
  | outOfDate
  | other (code : Nat)
deriving DecidableEq

/-- Frame-lifecycle state of `Renderer`. -/
structure RendererState where
  currentFrameIndex : Nat
  currentImageIndex : Nat
  isFrameStarted : Bool
  generation : Nat
deriving DecidableEq

/-- State after the constructor: `currentFrameIndex{0}`, `isFrameStarted{false}`. -/
def initialRenderer : RendererState :=
  { currentFrameIndex := 0, currentImageIndex := 0, isFrameStarted := false,
    generation := 0 }

/-- Embeds `SwapChain::getFrameBuffer(index)`: `swapChainFramebuffers[index]` — the
framebuffer is identified by its index within the current swapchain. -/
def getFrameBuffer (index : Nat) : Nat := index

/-- Embeds `Renderer::getCurrentCommandBuffer`: `commandBuffers[currentFrameIndex]`;
the primary buffer is identified by its frame slot. -/
def getCurrentCommandBuffer (s : RendererState) : Nat := s.currentFrameIndex

/-- Embeds `Renderer::getCurrentFrameBuffer` (Renderer.hpp): returns
`swapChain->getFrameBuffer(currentFrameIndex)`. -/
def getCurrentFrameBuffer (s : RendererState) : Nat :=
  getFrameBuffer s.currentFrameIndex

/-- Embeds `Renderer::beginFrame`: asserts no frame is in progress, acquires an
image; on `VK_ERROR_OUT_OF_DATE_KHR` recreates the swapchain and returns
`nullptr` (`none`); on any result other than success/suboptimal throws; else
marks the frame started and returns the slot's primary command buffer. -/
def beginFrame (s : RendererState) (acquire : AcquireResult) :
    Except String (RendererState × Option Nat) :=
  if s.isFrameStarted then
    .error "assert failed: beginFrame while already in progress"
  else
    match acquire with
    | .outOfDate => .ok ({ s with generation := s.generation + 1 }, none)
    | .success idx =>
        .ok ({ s with currentImageIndex := idx, isFrameStarted := true },
          some s.currentFrameIndex)
    | .suboptimal idx =>
        .ok ({ s with currentImageIndex := idx, isFrameStarted := true },
          some s.currentFrameIndex)
    | .other _ => .error "Failed to acquire swap chain image."

/-- Embeds `Renderer::endFrame`: asserts a frame is in progress, submits and
presents; on out-of-date/suboptimal/resized recreates the swapchain, on any
other non-success result throws; clears `isFrameStarted` and advances
`currentFrameIndex = (currentFrameIndex + 1) % MAX_FRAMES_IN_FLIGHT`. -/
def endFrame (s : RendererState) (present : PresentResult)
    (windowResized : Bool) : Except String RendererState :=
  if !s.isFrameStarted then
    .error "assert failed: endFrame while frame is not in progress"
  else if present = .outOfDate ∨ present = .suboptimal ∨ windowResized then
    .ok { s with
      generation := s.generation + 1
      isFrameStarted := false
      currentFrameIndex := (s.currentFrameIndex + 1) % MAX_FRAMES_IN_FLIGHT }
  else if present ≠ .success then
    .error "Failed to present swap chain image."
  else
    .ok { s with
      isFrameStarted := false
      currentFrameIndex := (s.currentFrameIndex + 1) % MAX_FRAMES_IN_FLIGHT }

/-- Embeds `Renderer::beginSwapChainRenderPass`: asserts a frame is in progress and
that the argument is the current frame's buffer, then begins the render pass
on `swapChain->getFrameBuffer(currentImageIndex)` (the bound framebuffer is
returned). -/
def beginSwapChainRenderPass (s : RendererState) (commandBuffer : Nat) :
    Except String Nat :=
  if !s.isFrameStarted then
    .error "assert failed: beginSwapChainRenderPass while frame is not in progress"
  else if commandBuffer ≠ getCurrentCommandBuffer s then
    .error "assert failed: render pass on command buffer from a different frame"
  else
    .ok (getFrameBuffer s.currentImageIndex)

/-- Embeds `Renderer::endSwapChainRenderPass`: same two contract assertions, then
`vkCmdEndRenderPass`. -/
def endSwapChainRenderPass (s : RendererState) (commandBuffer : Nat) :
    Except String Unit :=
  if !s.isFrameStarted then
    .error "assert failed: endSwapChainRenderPass while frame is not in progress"
  else if commandBuffer ≠ getCurrentCommandBuffer s then
    .error "assert failed: render pass on command buffer from a different frame"
  else
    .ok ()

/-- Whether a modelled call failed an assertion or threw. -/
def isError {α : Type} : Except String α → Bool
  | .error _ => true
  | .ok _ => false

/-- One iteration of the frame-loop body in `VulkanApplication::run`:
`if (VkCommandBuffer commandBuffer = renderer->beginFrame()) { … }` — on a
`nullptr` return the whole body (render pass, recording, `endFrame`, and
hence submission) is skipped. The returned `Bool` records whether anything
was submitted/presented this iteration. -/
def frameLoopIteration (s : RendererState) (acquire : AcquireResult)
    (present : PresentResult) (windowResized : Bool) :
    Except String (RendererState × Bool) :=
  match beginFrame s acquire with
  | .error e => .error e
  | .ok (s1, none) => .ok (s1, false)
  | .ok (s1, some cb) =>
    match beginSwapChainRenderPass s1 cb with
    | .error e => .error e
    | .ok _ =>
      match endSwapChainRenderPass s1 cb with
      | .error e => .error e
      | .ok _ =>
        match endFrame s1 present windowResized with
        | .error e => .error e
        | .ok s2 => .ok (s2, true)

/-- An operation on the frame scheduler, with the backend results it
observes. -/
inductive RendererOp where
  | beginF (acquire : AcquireResult)
  | endF (present : PresentResult) (windowResized : Bool)
  | beginRP (commandBuffer : Nat)
  | endRP (commandBuffer : Nat)

/-- Effect of one operation on the `Renderer` state (`beginRP`/`endRP` only
assert and record commands; they do not change scheduler state). -/
def rendererStep (s : RendererState) : RendererOp → Except String RendererState
  | .beginF a => (beginFrame s a).map Prod.fst
  | .endF p w => endFrame s p w
  | .beginRP cb => (beginSwapChainRenderPass s cb).map (fun _ => s)
  | .endRP cb => (endSwapChainRenderPass s cb).map (fun _ => s)

/-- Run a sequence of operations, stopping at the first assertion/throw. -/
def rendererRun (s : RendererState) : List RendererOp → Except String RendererState
  | [] => .ok s
  | op :: ops =>
    match rendererStep s op with
    | .error e => .error e
    | .ok s1 => rendererRun s1 ops

/-- The frame slots currently open (the scheduler tracks at most one). -/
def openFrameSlots (s : RendererState) : List Nat :=
  if s.isFrameStarted then [s.currentFrameIndex] else []

theorem beginFrame_ok_spec {s : RendererState} {a : AcquireResult}
    {s1 : RendererState} {cb : Option Nat}
    (h : beginFrame s a = .ok (s1, cb)) :
    s.isFrameStarted = false ∧ s1.currentFrameIndex = s.currentFrameIndex ∧
    s1.generation ≥ s.generation ∧
    ((cb = none ∧ s1.isFrameStarted = false) ∨
     (cb = some s.currentFrameIndex ∧ s1.isFrameStarted = true)) := by
  cases hs : s.isFrameStarted with
  | true => simp [beginFrame, hs] at h
  | false =>
    cases a with
    | success idx =>
      simp [beginFrame, hs] at h
      obtain ⟨h1, h2⟩ := h
      subst h1; subst h2
      simp [hs]
    | suboptimal idx =>
      simp [beginFrame, hs] at h
      obtain ⟨h1, h2⟩ := h
      subst h1; subst h2
      simp [hs]
    | outOfDate =>
      simp [beginFrame, hs] at h
      obtain ⟨h1, h2⟩ := h
      subst h1; subst h2
      simp [hs]
    | other code => simp [beginFrame, hs] at h

theorem endFrame_ok_spec {s : RendererState} {p : PresentResult} {w : Bool}
    {s1 : RendererState} (h : endFrame s p w = .ok s1) :
    s.isFrameStarted = true ∧ s1.isFrameStarted = false ∧
    s1.currentFrameIndex = (s.currentFrameIndex + 1) % MAX_FRAMES_IN_FLIGHT := by
  cases hs : s.isFrameStarted with
  | false => simp [endFrame, hs] at h
  | true =>
    by_cases hp : p = PresentResult.outOfDate ∨ p = PresentResult.suboptimal ∨
        w = true
    · simp [endFrame, hs, hp] at h
      subst h
      simp
    · have hw : w = false := by
        cases w
        · rfl
        · exact absurd (Or.inr (Or.inr rfl)) hp
      by_cases hps : p = PresentResult.success
      · simp [endFrame, hs, hp, hps, hw] at h
        subst h
        simp
      · have hpo : ¬(p = PresentResult.outOfDate ∨ p = PresentResult.suboptimal) := by
          intro hc
          rcases hc with hc | hc
          · exact hp (Or.inl hc)
          · exact hp (Or.inr (Or.inl hc))
        simp [endFrame, hs, hps, hw, hpo] at h

theorem rendererStep_preserves {s s1 : RendererState} {op : RendererOp}
    (h : rendererStep s op = .ok s1) :
    s1.currentFrameIndex = s.currentFrameIndex ∨
    s1.currentFrameIndex = (s.currentFrameIndex + 1) % MAX_FRAMES_IN_FLIGHT := by
  cases op with
  | beginF a =>
    simp only [rendererStep] at h
    cases hb : beginFrame s a with
    | error e => rw [hb] at h; simp [Except.map] at h
    | ok pair =>
      rw [hb] at h
      simp [Except.map] at h
      obtain ⟨s2, cb, rfl⟩ : ∃ s2 cb, pair = (s2, cb) := ⟨pair.1, pair.2, rfl⟩
      simp at h
      subst h
      exact Or.inl (beginFrame_ok_spec hb).2.1
  | endF p w => exact Or.inr (endFrame_ok_spec h).2.2
  | beginRP cb =>
    simp only [rendererStep] at h
    cases hb : beginSwapChainRenderPass s cb with
    | error e => rw [hb] at h; simp [Except.map] at h
    | ok v => rw [hb] at h; simp [Except.map] at h; subst h; exact Or.inl rfl
  | endRP cb =>
    simp only [rendererStep] at h
    cases hb : endSwapChainRenderPass s cb with
    | error e => rw [hb] at h; simp [Except.map] at h
    | ok v => rw [hb] at h; simp [Except.map] at h; subst h; exact Or.inl rfl

theorem rendererRun_frameIndex_lt :
    ∀ (ops : List RendererOp) (s : RendererState),
      s.currentFrameIndex < MAX_FRAMES_IN_FLIGHT →
      ∀ s1, rendererRun s ops = .ok s1 →
        s1.currentFrameIndex < MAX_FRAMES_IN_FLIGHT := by
  intro ops
  induction ops with
  | nil =>
    intro s hs s1 h
    simp [rendererRun] at h
    subst h
    exact hs
  | cons op rest ih =>
    intro s hs s1 h
    unfold rendererRun at h
    cases hst : rendererStep s op with
    | error e => rw [hst] at h; simp at h
    | ok s2 =>
      rw [hst] at h
      refine ih s2 ?_ s1 h
      rcases rendererStep_preserves hst with he | he
      · omega
      · rw [he]
        simp only [MAX_FRAMES_IN_FLIGHT]
        omega

/-- C4: the frame scheduler's state-machine invariant: with
`MAX_FRAMES_IN_FLIGHT = 2`, every state reachable from the initial state by
any operation sequence keeps `currentFrameIndex ∈ [0, MAX_FRAMES_IN_FLIGHT)`;
every completed `endFrame` advances
`frameIndex' = (frameIndex + 1) % MAX_FRAMES_IN_FLIGHT` and closes the frame;
`isFrameStarted` becomes true exactly when `beginFrame` succeeds with a
buffer and calling `beginFrame` while open or `endFrame` while closed fails
the contract assertion; and the set of concurrently-open frame slots never
holds two entries, so no two open frames share a `frameIndex`. -/
theorem frame_scheduler_invariant :
    MAX_FRAMES_IN_FLIGHT = 2 ∧
    (∀ ops s1, rendererRun initialRenderer ops = .ok s1 →
      s1.currentFrameIndex < MAX_FRAMES_IN_FLIGHT) ∧
    (∀ s p w s1, endFrame s p w = .ok s1 →
      s.isFrameStarted = true ∧ s1.isFrameStarted = false ∧
      s1.currentFrameIndex = (s.currentFrameIndex + 1) % MAX_FRAMES_IN_FLIGHT) ∧
    (∀ s a s1 cb, beginFrame s a = .ok (s1, some cb) →
      s1.isFrameStarted = true ∧ s1.currentFrameIndex = s.currentFrameIndex) ∧
    (∀ s a, s.isFrameStarted = true → isError (beginFrame s a) = true) ∧
    (∀ s p w, s.isFrameStarted = false → isError (endFrame s p w) = true) ∧
    (∀ s : RendererState, (openFrameSlots s).length ≤ 1 ∧
      (openFrameSlots s).Nodup) := by
  refine ⟨rfl, ?_, ?_, ?_, ?_, ?_, ?_⟩
  · intro ops s1 h
    exact rendererRun_frameIndex_lt ops initialRenderer (by decide) s1 h
  · intro s p w s1 h
    exact endFrame_ok_spec h
  · intro s a s1 cb h
    have hspec := beginFrame_ok_spec h
    rcases hspec.2.2.2 with ⟨hnone, _⟩ | ⟨_, hstart⟩
    · exact absurd hnone (by simp)
    · exact ⟨hstart, hspec.2.1⟩
  · intro s a h
    simp [beginFrame, isError, h]
  · intro s p w h
    simp [endFrame, isError, h]
  · intro s
    unfold openFrameSlots
    cases s.isFrameStarted <;> simp

theorem frame_scheduler_invariant_witness :
    rendererRun initialRenderer
      [RendererOp.beginF (AcquireResult.success 0),
       RendererOp.endF PresentResult.success false] =
      .ok { currentFrameIndex := 1, currentImageIndex := 0,
            isFrameStarted := false, generation := 0 } ∧
    (1 : Nat) < MAX_FRAMES_IN_FLIGHT := by
  constructor
  · rfl
  · have h := frame_scheduler_invariant.2.1
      [RendererOp.beginF (AcquireResult.success 0),
       RendererOp.endF PresentResult.success false]
      { currentFrameIndex := 1, currentImageIndex := 0,
        isFrameStarted := false, generation := 0 } (by rfl)
    exact h

/-- C2: a stale (`VK_ERROR_OUT_OF_DATE_KHR`) acquire makes `beginFrame`
recreate the swapchain and return `nullptr` without opening a frame; the
run-loop iteration then submits nothing, and the frame index after the
skipped frame equals its value before the failed acquire; any acquire
result other than success/suboptimal/out-of-date throws a fatal error. -/
theorem beginFrame_stale_skips_frame (s : RendererState)
    (h : s.isFrameStarted = false) :
    beginFrame s AcquireResult.outOfDate =
      .ok ({ s with generation := s.generation + 1 }, none) ∧
    (∀ s1 cb, beginFrame s AcquireResult.outOfDate = .ok (s1, cb) →
      cb = none ∧ s1.isFrameStarted = false ∧
      s1.currentFrameIndex = s.currentFrameIndex ∧
      s1.generation = s.generation + 1) ∧
    (∀ p w, frameLoopIteration s AcquireResult.outOfDate p w =
      .ok ({ s with generation := s.generation + 1 }, false)) ∧
    (∀ code, isError (beginFrame s (AcquireResult.other code)) = true) := by
  refine ⟨by simp [beginFrame, h], ?_, ?_, ?_⟩
  · intro s1 cb hb
    simp [beginFrame, h] at hb
    obtain ⟨h1, h2⟩ := hb
    subst h1; subst h2
    simp [h]
  · intro p w
    simp [frameLoopIteration, beginFrame, h]
  · intro code
    simp [beginFrame, isError, h]

theorem beginFrame_stale_skips_frame_witness :
    initialRenderer.isFrameStarted = false ∧
    beginFrame initialRenderer AcquireResult.outOfDate =
      .ok ({ initialRenderer with generation := 1 }, none) :=
  ⟨rfl, (beginFrame_stale_skips_frame initialRenderer rfl).1⟩

/-- C7: `beginSwapChainRenderPass`/`endSwapChainRenderPass` fail the contract
assertion whenever no frame is in progress, or whenever the command buffer
passed is not the one the current `beginFrame` returned — the call is never
accepted in those situations. -/
theorem renderPass_contract_rejected (s : RendererState) (cb : Nat)
    (h : s.isFrameStarted = false ∨ cb ≠ getCurrentCommandBuffer s) :
    isError (beginSwapChainRenderPass s cb) = true ∧
    isError (endSwapChainRenderPass s cb) = true := by
  rcases h with h | h
  · constructor <;>
      simp [beginSwapChainRenderPass, endSwapChainRenderPass, isError, h]
  · cases hs : s.isFrameStarted <;> constructor <;>
      simp [beginSwapChainRenderPass, endSwapChainRenderPass, isError, hs, h]

theorem renderPass_contract_rejected_witness :
    (initialRenderer.isFrameStarted = false ∨
      (0 : Nat) ≠ getCurrentCommandBuffer initialRenderer) ∧
    isError (beginSwapChainRenderPass initialRenderer 0) = true ∧
    isError (endSwapChainRenderPass initialRenderer 0) = true :=
  ⟨Or.inl rfl, renderPass_contract_rejected initialRenderer 0 (Or.inl rfl)⟩

/-! ## Secondary-buffer inheritance info (`VulkanApplication::run`) -/

/-- The `VkCommandBufferInheritanceInfo` fields filled per frame in
`VulkanApplication::run`. -/
structure SecondaryInheritance where
  renderPass : Nat
  subpass : Nat
  framebuffer : Nat
deriving DecidableEq

/-- The inheritance info built in `VulkanApplication::run`:
`inherit.renderPass = renderer->getSwapChainRenderPass(); inherit.subpass = 0;
inherit.framebuffer = renderer->getCurrentFrameBuffer();`. -/
def mkInheritance (renderPass : Nat) (s : RendererState) : SecondaryInheritance :=
  { renderPass := renderPass, subpass := 0,
    framebuffer := getCurrentFrameBuffer s }

/-- The state of the first frame after the backend acquires image index 1:
`currentFrameIndex = 0`, `currentImageIndex = 1`. -/
def mismatchFrame : RendererState :=
  { currentFrameIndex := 0, currentImageIndex := 1, isFrameStarted := true,
    generation := 0 }

/-- C5 (refuted by the code): on a reachable frame — the first frame, with
the backend acquiring image index 1 — the worker inheritance info is bound
to `getCurrentFrameBuffer() = getFrameBuffer(currentFrameIndex) =
getFrameBuffer 0`, while `beginSwapChainRenderPass` begins the frame's
render pass on `getFrameBuffer(currentImageIndex) = getFrameBuffer 1`: the
inheritance framebuffer is NOT the framebuffer the render pass was begun
with whenever `currentFrameIndex ≠ currentImageIndex`. -/
theorem inheritance_framebuffer_mismatch :
    beginFrame initialRenderer (AcquireResult.success 1) =
      .ok (mismatchFrame, some 0) ∧
    beginSwapChainRenderPass mismatchFrame 0 = .ok (getFrameBuffer 1) ∧
    (mkInheritance 7 mismatchFrame).framebuffer ≠ getFrameBuffer 1 ∧
    (mkInheritance 7 mismatchFrame).renderPass = 7 ∧
    (mkInheritance 7 mismatchFrame).subpass = 0 :=
  ⟨rfl, rfl, by decide, rfl, rfl⟩

/-! ## SwapChain recreation (`Renderer::recreateSwapChain`, SwapChain.hpp)

`recreateSwapChain` first loops
`while (extent.width == 0 || extent.height == 0) { extent = window.getExtent(); glfwWaitEvents(); }`,
then rebuilds the swapchain; if a previos generation existed, the new one
must satisfy `oldSwapChain->compareSwapFormats(*swapChain)` or a fatal
`std::runtime_error` is thrown. -/

/-- A window extent as returned by `Window::getExtent`. -/
structure Extent2D where
  width : Nat
  height : Nat
deriving DecidableEq

/-- Format-relevant state of one swapchain generation; the color and depth
`VkFormat`s are chosen by the backend at construction. -/
structure SwapChainGen where
  swapChainImageFormat : Nat
  swapChainDepthFormat : Nat
  swapChainExtent : Extent2D
deriving DecidableEq

/-- Embeds `SwapChain::compareSwapFormats(other)`: true iff the other swapchain's
depth and image formats both equal this one's. -/
def compareSwapFormats (self other : SwapChainGen) : Bool :=
  other.swapChainDepthFormat == self.swapChainDepthFormat &&
  other.swapChainImageFormat == self.swapChainImageFormat

/-- The extent poll loop at the top of `recreateSwapChain`, over the stream
of extents returned by successive `window.getExtent()` calls; `none` models
the loop still blocking (it never throws). -/
def waitForValidExtent : List Extent2D → Option Extent2D
  | [] => none
  | e :: rest =>
    if e.width = 0 ∨ e.height = 0 then waitForValidExtent rest else some e

/-- Embeds `SwapChain::SwapChain(device, extent[, previous])` with the formats the
backend selects for this generation. -/
def createSwapChain (imageFormat depthFormat : Nat) (extent : Extent2D) :
    SwapChainGen :=
  { swapChainImageFormat := imageFormat, swapChainDepthFormat := depthFormat,
    swapChainExtent := extent }

/-- Embeds `Renderer::recreateSwapChain`: block until the polled extent is
non-degenerate, then rebuild; with a previous generation the formats must
compare equal or the call throws. `none` = still blocked polling;
`some (.error _)` = thrown; `some (.ok sc)` = new current generation. -/
def recreateSwapChain (polls : List Extent2D) (old : Option SwapChainGen)
    (imageFormat depthFormat : Nat) : Option (Except String SwapChainGen) :=
  (waitForValidExtent polls).map (fun extent =>
    match old with
    | none => .ok (createSwapChain imageFormat depthFormat extent)
    | some o =>
      if compareSwapFormats o (createSwapChain imageFormat depthFormat extent) then
        .ok (createSwapChain imageFormat depthFormat extent)
      else .error "Swap chain image or depth format has changed.")

/-- A sequence of recreations, each with its own polled extents and
backend-chosen formats, threading the current generation through. -/
def runRecreations (cur : SwapChainGen) :
    List (List Extent2D × Nat × Nat) → Option (Except String SwapChainGen)
  | [] => some (.ok cur)
  | req :: rest =>
    match recreateSwapChain req.1 (some cur) req.2.1 req.2.2 with
    | none => none
    | some (.error e) => some (.error e)
    | some (.ok sc) => runRecreations sc rest

theorem recreateSwapChain_ok_formats {polls : List Extent2D}
    {old : SwapChainGen} {imgF depF : Nat} {sc : SwapChainGen}
    (h : recreateSwapChain polls (some old) imgF depF = some (.ok sc)) :
    sc.swapChainImageFormat = old.swapChainImageFormat ∧
    sc.swapChainDepthFormat = old.swapChainDepthFormat := by
  unfold recreateSwapChain at h
  cases hw : waitForValidExtent polls with
  | none => rw [hw] at h; simp at h
  | some e =>
    rw [hw, Option.map_some'] at h
    dsimp only at h
    by_cases hc : compareSwapFormats old (createSwapChain imgF depF e) = true
    · rw [if_pos hc] at h
      have hfmt := hc
      unfold compareSwapFormats createSwapChain at hfmt
      simp only [Bool.and_eq_true, beq_iff_eq] at hfmt
      simp only [Option.some_inj, Except.ok.injEq] at h
      subst h
      exact ⟨hfmt.2, hfmt.1⟩
    · rw [if_neg (by simpa using hc)] at h
      simp at h

theorem recreateSwapChain_format_drift {polls : List Extent2D}
    {old : SwapChainGen} {imgF depF : Nat} {e : Extent2D}
    (hw : waitForValidExtent polls = some e)
    (hdrift : imgF ≠ old.swapChainImageFormat ∨ depF ≠ old.swapChainDepthFormat) :
    recreateSwapChain polls (some old) imgF depF =
      some (.error "Swap chain image or depth format has changed.") := by
  unfold recreateSwapChain
  rw [hw, Option.map_some']
  dsimp only
  have hfalse : compareSwapFormats old (createSwapChain imgF depF e) = false := by
    unfold compareSwapFormats createSwapChain
    rcases hdrift with hd | hd
    · simp [hd]
    · simp [hd]
  rw [if_neg (by simp [hfalse])]

theorem runRecreations_formats {reqs : List (List Extent2D × Nat × Nat)} :
    ∀ {cur sc : SwapChainGen}, runRecreations cur reqs = some (.ok sc) →
      sc.swapChainImageFormat = cur.swapChainImageFormat ∧
      sc.swapChainDepthFormat = cur.swapChainDepthFormat := by
  induction reqs with
  | nil =>
    intro cur sc h
    simp [runRecreations] at h
    subst h
    exact ⟨rfl, rfl⟩
  | cons req rest ih =>
    intro cur sc h
    unfold runRecreations at h
    cases hr : recreateSwapChain req.1 (some cur) req.2.1 req.2.2 with
    | none => rw [hr] at h; simp at h
    | some res =>
      rw [hr] at h
      cases res with
      | error e => simp at h
      | ok sc1 =>
        dsimp only at h
        have h1 := recreateSwapChain_ok_formats hr
        have h2 := ih h
        exact ⟨h2.1.trans h1.1, h2.2.trans h1.2⟩

/-- C3: after every recreation that had a predecessor generation, the color
and depth formats equal the predecessor's; if either backend-chosen format
differs, recreation throws the fatal
"Swap chain image or depth format has changed." error instead of
continuing; and across any sequence of successful recreations (e.g. two
back-to-back) the formats equal the original generation's. -/
theorem swapchain_recreation_format_stable :
    (∀ polls (old : SwapChainGen) imgF depF sc,
      recreateSwapChain polls (some old) imgF depF = some (.ok sc) →
      sc.swapChainImageFormat = old.swapChainImageFormat ∧
      sc.swapChainDepthFormat = old.swapChainDepthFormat) ∧
    (∀ polls (old : SwapChainGen) imgF depF (e : Extent2D),
      waitForValidExtent polls = some e →
      imgF ≠ old.swapChainImageFormat ∨ depF ≠ old.swapChainDepthFormat →
      recreateSwapChain polls (some old) imgF depF =
        some (.error "Swap chain image or depth format has changed.")) ∧
    (∀ (cur : SwapChainGen) reqs sc,
      runRecreations cur reqs = some (.ok sc) →
      sc.swapChainImageFormat = cur.swapChainImageFormat ∧
      sc.swapChainDepthFormat = cur.swapChainDepthFormat) :=
  ⟨fun _ _ _ _ _ h => recreateSwapChain_ok_formats h,
   fun _ _ _ _ _ hw hd => recreateSwapChain_format_drift hw hd,
   fun _ _ _ h => runRecreations_formats h⟩

theorem swapchain_recreation_format_stable_witness :
    runRecreations (createSwapChain 5 9 ⟨800, 600⟩)
      [([⟨800, 600⟩], 5, 9), ([⟨1024, 768⟩], 5, 9)] =
      some (.ok (createSwapChain 5 9 ⟨1024, 768⟩)) ∧
    (createSwapChain 5 9 ⟨1024, 768⟩).swapChainImageFormat =
      (createSwapChain 5 9 ⟨800, 600⟩).swapChainImageFormat ∧
    recreateSwapChain [⟨800, 600⟩] (some (createSwapChain 5 9 ⟨800, 600⟩)) 6 9 =
      some (.error "Swap chain image or depth format has changed.") := by
  refine ⟨rfl, ?_, ?_⟩
  · exact (swapchain_recreation_format_stable.2.2
      (createSwapChain 5 9 ⟨800, 600⟩)
      [([⟨800, 600⟩], 5, 9), ([⟨1024, 768⟩], 5, 9)]
      (createSwapChain 5 9 ⟨1024, 768⟩) rfl).1
  · exact swapchain_recreation_format_stable.2.1
      [⟨800, 600⟩] (createSwapChain 5 9 ⟨800, 600⟩) 6 9 ⟨800, 600⟩ rfl
      (Or.inl (by decide))

/-- The extent poll loop returns the first polled extent whose width and
height are both non-zero. -/
theorem waitForValidExtent_eq_find (polls : List Extent2D) :
    waitForValidExtent polls =
      polls.find? (fun e => !(e.width == 0 || e.height == 0)) := by
  induction polls with
  | nil => rfl
  | cons e rest ih =>
    unfold waitForValidExtent
    by_cases h : e.width = 0 ∨ e.height = 0
    · rw [if_pos h, ih, List.find?_cons_of_neg]
      rcases h with h | h <;> simp [h]
    · rw [if_neg h, List.find?_cons_of_pos]
      push_neg at h
      simp [h.1, h.2]

theorem waitForValidExtent_pos {polls : List Extent2D} {e : Extent2D}
    (h : waitForValidExtent polls = some e) : 0 < e.width ∧ 0 < e.height := by
  rw [waitForValidExtent_eq_find] at h
  have hp := List.find?_some h
  simp only [Bool.not_eq_eq_eq_not, Bool.not_true, Bool.or_eq_false_iff,
    beq_eq_false_iff_ne, ne_eq] at hp
  omega

/-- C9: with a degenerate (minimized) extent, recreation blocks and
re-polls the window system rather than throwing: the poll loop yields the
first polled extent with positive width and height, it yields one as soon
as any poll is non-degenerate, `recreateSwapChain` stays blocked (`none`,
never an error) while every poll is degenerate, and any swapchain it does
construct has a positive extent. -/
theorem minimized_window_blocks (polls : List Extent2D) :
    waitForValidExtent polls =
      polls.find? (fun e => !(e.width == 0 || e.height == 0)) ∧
    (∀ e, waitForValidExtent polls = some e → 0 < e.width ∧ 0 < e.height) ∧
    ((∃ e ∈ polls, 0 < e.width ∧ 0 < e.height) →
      (waitForValidExtent polls).isSome = true) ∧
    ((∀ e ∈ polls, e.width = 0 ∨ e.height = 0) →
      ∀ old imgF depF, recreateSwapChain polls old imgF depF = none) ∧
    (∀ old imgF depF res sc,
      recreateSwapChain polls old imgF depF = some res → res = .ok sc →
      0 < sc.swapChainExtent.width ∧ 0 < sc.swapChainExtent.height) := by
  refine ⟨waitForValidExtent_eq_find polls, fun e => waitForValidExtent_pos,
    ?_, ?_, ?_⟩
  · intro ⟨e, hmem, hw, hh⟩
    rw [waitForValidExtent_eq_find]
    rw [List.find?_isSome]
    exact ⟨e, hmem, by simp; omega⟩
  · intro hall old imgF depF
    have hnone : waitForValidExtent polls = none := by
      rw [waitForValidExtent_eq_find, List.find?_eq_none]
      intro e hmem
      rcases hall e hmem with h | h <;> simp [h]
    unfold recreateSwapChain
    rw [hnone]
    rfl
  · intro old imgF depF res sc hres hok
    subst hok
    unfold recreateSwapChain at hres
    cases hw : waitForValidExtent polls with
    | none => rw [hw] at hres; simp at hres
    | some e =>
      rw [hw, Option.map_some'] at hres
      have hpos := waitForValidExtent_pos hw
      cases old with
      | none =>
        dsimp only at hres
        simp only [Option.some_inj, Except.ok.injEq] at hres
        rw [← hres]
        exact hpos
      | some o =>
        dsimp only at hres
        by_cases hc : compareSwapFormats o (createSwapChain imgF depF e) = true
        · rw [if_pos hc] at hres
          simp only [Option.some_inj, Except.ok.injEq] at hres
          rw [← hres]
          exact hpos
        · rw [if_neg (by simpa using hc)] at hres
          simp at hres

theorem minimized_window_blocks_witness :
    waitForValidExtent
      [Extent2D.mk 0 0, Extent2D.mk 0 0, Extent2D.mk 800 600] =
      some (Extent2D.mk 800 600) ∧
    (0 < (800 : Nat) ∧ 0 < (600 : Nat)) ∧
    recreateSwapChain [Extent2D.mk 0 0] none 5 9 = none := by
  refine ⟨rfl, ?_, ?_⟩
  · exact (minimized_window_blocks
      [Extent2D.mk 0 0, Extent2D.mk 0 0, Extent2D.mk 800 600]).2.1
      (Extent2D.mk 800 600) rfl
  · exact (minimized_window_blocks [Extent2D.mk 0 0]).2.2.2.1
      (by intro e hmem; simp at hmem; subst hmem; exact Or.inl rfl) none 5 9

/-! ## BasicRenderer::recordRange (`BasicRenderer.cpp`)

`recordRange` rebuilds the indexed `view` of the game-object map, clamps
`begin` and `end` to `view.size()`, then loops `for (i = begin; i < end; ++i)`
skipping objects with `!object.model` and recording push-constants + bind +
draw for the rest. -/

/-- A renderable as `recordRange` sees it: its key in the view and whether
`object.model != nullptr`. -/
structure Renderable where
  id : Nat
  hasModel : Bool
deriving DecidableEq

/-- The recording loop over `view`: indexing past the end of the vector is
undefined behaviour, modelled as `none`; entries without a model are skipped
without error, the rest have their draw recorded (id appended in order). -/
def recordLoop (view : List Renderable) (i e : Nat) : Option (List Nat) :=
  if i < e then
    match view[i]? with
    | some o =>
      (recordLoop view (i + 1) e).map
        (fun rest => (if o.hasModel then [o.id] else []) ++ rest)
    | none => none
  else
    some []
termination_by e - i

/-- Embeds `BasicRenderer::recordRange(frameInfo, cbSec, begin, end)`:
`if (begin > view.size()) begin = view.size();` and likewise for `end`,
then the recording loop. -/
def recordRange (view : List Renderable) (b e : Nat) : Option (List Nat) :=
  recordLoop view
    (if b > view.length then view.length else b)
    (if e > view.length then view.length else e)

theorem recordLoop_eq (view : List Renderable) :
    ∀ k i e, e - i = k → e ≤ view.length →
      recordLoop view i e =
        some (((view.drop i).take (e - i)).filterMap
          (fun o => if o.hasModel then some o.id else none)) := by
  intro k
  induction k with
  | zero =>
    intro i e hk he
    unfold recordLoop
    rw [if_neg (by omega)]
    rw [hk]
    simp
  | succ m ih =>
    intro i e hk he
    unfold recordLoop
    rw [if_pos (by omega)]
    have hi : i < view.length := by omega
    rw [List.getElem?_eq_getElem hi]
    rw [ih (i + 1) e (by omega) he]
    simp only [Option.map_some']
    congr 1
    rw [List.drop_eq_getElem_cons hi]
    have hsub : e - i = (e - (i + 1)) + 1 := by omega
    rw [hsub, List.take_succ_cons, List.filterMap_cons]
    cases hm : view[i].hasModel <;> simp [hm]

/-- C10: `recordRange` first clamps both indices to the number of
renderables `N = view.size()`, so the call records (in index order) exactly
the renderables at indices `[min(begin, N), min(end, N))` that have an
attached model — those without one are skipped without error — and never
performs an out-of-range access (the result is never the
undefined-behaviour `none`), including when `begin` or `end` exceeds `N` or
`begin > end`. -/
theorem recordRange_clamps (view : List Renderable) (b e : Nat) :
    recordRange view b e =
      some (((view.drop (min b view.length)).take
          (min e view.length - min b view.length)).filterMap
        (fun o => if o.hasModel then some o.id else none)) := by
  unfold recordRange
  have hb : (if b > view.length then view.length else b) = min b view.length := by
    split_ifs <;> omega
  have he : (if e > view.length then view.length else e) = min e view.length := by
    split_ifs <;> omega
  rw [hb, he]
  exact recordLoop_eq view _ (min b view.length) (min e view.length) rfl
    (by omega)

/-! ## Point-light billboard pass (`PointLightRenderer.cpp`)

`PointLightSystem::render` builds `std::map<float, unsigned> sorted`,
inserting `sorted[disSquared] = obj.getId()` for every game object with a
light component, then iterates `sorted.rbegin() .. rend()` (descending key
order) issuing one billboard draw per entry. The float squared distance is
abstracted to a `Nat`-valued key with the same strict ordering. -/

/-- A scene object as the light pass sees it: its id, whether it carries a
light component (`obj.light != nullptr`), and its squared distance from the
camera this frame. -/
structure SceneObject where
  id : Nat
  hasLight : Bool
  distSq : Nat
deriving DecidableEq

/-- Embeds `sorted[disSquared] = obj.getId()`: insertion into the ascending-key
ordered map, overwriting the stored id if the key is already present. -/
def mapInsert (k v : Nat) : List (Nat × Nat) → List (Nat × Nat)
  | [] => [(k, v)]
  | (k1, v1) :: rest =>
    if k < k1 then (k, v) :: (k1, v1) :: rest
    else if k = k1 then (k, v) :: rest
    else (k1, v1) :: mapInsert k v rest

/-- Loop body of the first loop of `PointLightSystem::render`: objects
without a light component are skipped, the rest are inserted. -/
def insertLight (m : List (Nat × Nat)) (o : SceneObject) : List (Nat × Nat) :=
  if o.hasLight then mapInsert o.distSq o.id m else m

/-- The distance-sorted map after the first loop. -/
def buildSorted (objs : List SceneObject) : List (Nat × Nat) :=
  objs.foldl insertLight []

/-- The ids drawn by the second loop, in draw order
(`sorted.rbegin()` to `rend()`: descending key order). -/
def lightDrawOrder (objs : List SceneObject) : List Nat :=
  (buildSorted objs).reverse.map Prod.snd

/-- The (distance, id) pairs of the light-carrying objects in scene order. -/
def lightPairs (objs : List SceneObject) : List (Nat × Nat) :=
  (objs.filter (fun o => o.hasLight)).map (fun o => (o.distSq, o.id))

theorem mapInsert_keys (k v : Nat) :
    ∀ m : List (Nat × Nat), ∀ x ∈ (mapInsert k v m).map Prod.fst,
      x = k ∨ x ∈ m.map Prod.fst := by
  intro m
  induction m with
  | nil =>
    intro x hx
    simp [mapInsert] at hx
    exact Or.inl hx
  | cons p rest ih =>
    obtain ⟨k1, v1⟩ := p
    intro x hx
    unfold mapInsert at hx
    by_cases h1 : k < k1
    · rw [if_pos h1] at hx
      simp at hx
      rcases hx with hx | hx | hx
      · exact Or.inl hx
      · exact Or.inr (by simp [hx])
      · exact Or.inr (by simp [hx])
    · rw [if_neg h1] at hx
      by_cases h2 : k = k1
      · rw [if_pos h2] at hx
        simp at hx
        rcases hx with hx | hx
        · exact Or.inl hx
        · exact Or.inr (by simp [hx])
      · rw [if_neg h2] at hx
        simp only [List.map_cons, List.mem_cons] at hx
        rcases hx with hx | hx
        · exact Or.inr (by simp [hx])
        · rcases ih x hx with hx1 | hx1
          · exact Or.inl hx1
          · exact Or.inr (by simp [hx1])

theorem mapInsert_sorted (k v : Nat) :
    ∀ m : List (Nat × Nat), (m.map Prod.fst).Pairwise (· < ·) →
      ((mapInsert k v m).map Prod.fst).Pairwise (· < ·) := by
  intro m
  induction m with
  | nil =>
    intro _
    simp [mapInsert]
  | cons p rest ih =>
    obtain ⟨k1, v1⟩ := p
    intro hs
    simp only [List.map_cons, List.pairwise_cons] at hs
    obtain ⟨hall, hrest⟩ := hs
    unfold mapInsert
    by_cases h1 : k < k1
    · rw [if_pos h1]
      simp only [List.map_cons, List.pairwise_cons]
      refine ⟨?_, ?_⟩
      · intro b hb
        simp only [List.map_cons, List.mem_cons] at hb
        rcases hb with hb | hb
        · omega
        · have := hall b hb
          omega
      · exact ⟨hall, hrest⟩
    · rw [if_neg h1]
      by_cases h2 : k = k1
      · rw [if_pos h2]
        simp only [List.map_cons, List.pairwise_cons]
        subst h2
        exact ⟨hall, hrest⟩
      · rw [if_neg h2]
        simp only [List.map_cons, List.pairwise_cons]
        refine ⟨?_, ih hrest⟩
        intro b hb
        rcases mapInsert_keys k v rest b hb with hb1 | hb1
        · omega
        · exact hall b hb1

theorem mapInsert_perm (k v : Nat) :
    ∀ m : List (Nat × Nat), k ∉ m.map Prod.fst →
      (mapInsert k v m).Perm ((k, v) :: m) := by
  intro m
  induction m with
  | nil =>
    intro _
    simp [mapInsert]
  | cons p rest ih =>
    obtain ⟨k1, v1⟩ := p
    intro hk
    simp only [List.map_cons, List.mem_cons] at hk
    push_neg at hk
    unfold mapInsert
    by_cases h1 : k < k1
    · rw [if_pos h1]
    · rw [if_neg h1, if_neg hk.1]
      exact ((ih hk.2).cons (k1, v1)).trans (List.Perm.swap (k, v) (k1, v1) rest)

theorem foldl_insertLight_sorted :
    ∀ (objs : List SceneObject) (m : List (Nat × Nat)),
      (m.map Prod.fst).Pairwise (· < ·) →
      ((objs.foldl insertLight m).map Prod.fst).Pairwise (· < ·) := by
  intro objs
  induction objs with
  | nil =>
    intro m hm
    simpa using hm
  | cons o rest ih =>
    intro m hm
    rw [List.foldl_cons]
    unfold insertLight
    by_cases hl : o.hasLight
    · rw [if_pos hl]
      exact ih _ (mapInsert_sorted o.distSq o.id m hm)
    · rw [if_neg hl]
      exact ih m hm

theorem foldl_insertLight_perm :
    ∀ (objs : List SceneObject) (m : List (Nat × Nat)),
      (∀ x ∈ m.map Prod.fst,
        x ∉ (objs.filter (fun o => o.hasLight)).map SceneObject.distSq) →
      ((objs.filter (fun o => o.hasLight)).map SceneObject.distSq).Nodup →
      (objs.foldl insertLight m).Perm (m ++ lightPairs objs) := by
  intro objs
  induction objs with
  | nil =>
    intro m _ _
    simp [lightPairs]
  | cons o rest ih =>
    intro m hdisj hnd
    rw [List.foldl_cons]
    unfold insertLight
    by_cases hl : o.hasLight
    · rw [if_pos hl]
      rw [List.filter_cons_of_pos (by simp [hl]), List.map_cons] at hdisj hnd
      have hdnotin : o.distSq ∉ m.map Prod.fst := by
        intro hx
        exact hdisj o.distSq hx (List.mem_cons_self _ _)
      have hdrest : o.distSq ∉
          (rest.filter (fun o => o.hasLight)).map SceneObject.distSq :=
        (List.nodup_cons.mp hnd).1
      have hfold := ih (mapInsert o.distSq o.id m)
        (by
          intro x hx hmem
          rcases mapInsert_keys o.distSq o.id m x hx with hx1 | hx1
          · subst hx1
            exact hdrest hmem
          · exact hdisj x hx1 (List.mem_cons_of_mem _ hmem))
        (List.nodup_cons.mp hnd).2
      have hmid : ((o.distSq, o.id) :: m ++ lightPairs rest).Perm
          (m ++ (o.distSq, o.id) :: lightPairs rest) :=
        List.perm_middle.symm
      have hlp : lightPairs (o :: rest) = (o.distSq, o.id) :: lightPairs rest := by
        unfold lightPairs
        rw [List.filter_cons_of_pos (by simp [hl]), List.map_cons]
      rw [hlp]
      exact hfold.trans
        (((mapInsert_perm o.distSq o.id m hdnotin).append_right
          (lightPairs rest)).trans hmid)
    · rw [if_neg hl]
      have hfil : (o :: rest).filter (fun o => o.hasLight) =
          rest.filter (fun o => o.hasLight) := by
        rw [List.filter_cons_of_neg (by simp [hl])]
      rw [hfil] at hdisj hnd
      have hlp : lightPairs (o :: rest) = lightPairs rest := by
        unfold lightPairs
        rw [hfil]
      rw [hlp]
      exact ih m hdisj hnd

/-- C8 as stated is false on the code: with two light-carrying objects at
equal squared distance, `sorted[disSquared] = obj.getId()` overwrites the
entry, so the earlier object is never drawn — not "each light-carrying
object is drawn exactly once". -/
theorem pointLight_equal_distance_dropped :
    (SceneObject.mk 1 true 5).hasLight = true ∧
    lightDrawOrder [SceneObject.mk 1 true 5, SceneObject.mk 2 true 5] = [2] ∧
    List.count 1 (lightDrawOrder
      [SceneObject.mk 1 true 5, SceneObject.mk 2 true 5]) = 0 := by
  decide

/-- C8 (amended): the light pass performs a single-threaded per-frame
distance sort and draws the billboards back to front; provided the
light-carrying objects' squared distances are pairwise distinct this frame,
the drawn ids are exactly the light-carrying objects' ids (each drawn
exactly once; objects without a light component are never drawn) and the
drawn entries' squared distances are strictly decreasing. When two lights
share a squared distance, only the later-iterated one is drawn. -/
theorem pointLight_sorted_draw (objs : List SceneObject)
    (hdist : ((objs.filter (fun o => o.hasLight)).map SceneObject.distSq).Nodup) :
    (lightDrawOrder objs).Perm
      ((objs.filter (fun o => o.hasLight)).map SceneObject.id) ∧
    ((buildSorted objs).reverse.map Prod.fst).Pairwise (fun a b => b < a) := by
  constructor
  · have h1 : (buildSorted objs).Perm (lightPairs objs) := by
      have h := foldl_insertLight_perm objs [] (by simp) hdist
      simpa [buildSorted] using h
    unfold lightDrawOrder
    have h2 : ((buildSorted objs).reverse.map Prod.snd).Perm
        ((buildSorted objs).map Prod.snd) :=
      ((buildSorted objs).reverse_perm).map Prod.snd
    refine h2.trans ?_
    have h3 := h1.map Prod.snd
    refine h3.trans ?_
    have hmap : (lightPairs objs).map Prod.snd =
        (objs.filter (fun o => o.hasLight)).map SceneObject.id := by
      unfold lightPairs
      rw [List.map_map]
      rfl
    rw [hmap]
  · have hs := foldl_insertLight_sorted objs [] (by simp)
    have hsort : ((buildSorted objs).map Prod.fst).Pairwise (· < ·) := by
      simpa [buildSorted] using hs
    rw [List.map_reverse, List.pairwise_reverse]
    exact hsort

theorem pointLight_sorted_draw_witness :
    (([SceneObject.mk 1 true 5, SceneObject.mk 2 false 3,
        SceneObject.mk 3 true 2].filter (fun o => o.hasLight)).map
          SceneObject.distSq).Nodup ∧
    (lightDrawOrder [SceneObject.mk 1 true 5, SceneObject.mk 2 false 3,
        SceneObject.mk 3 true 2]).Perm
      (([SceneObject.mk 1 true 5, SceneObject.mk 2 false 3,
        SceneObject.mk 3 true 2].filter (fun o => o.hasLight)).map
          SceneObject.id) :=
  ⟨by decide,
   (pointLight_sorted_draw
     [SceneObject.mk 1 true 5, SceneObject.mk 2 false 3,
      SceneObject.mk 3 true 2] (by decide)).1⟩
